import Mathlib

/-!
Shallow embedding of the resumable Jira fetch pipeline
(`src/scraper.py`, `src/jira_client.py`, `main.py`).

The per-project checkpoint dictionary becomes `ProjState`; the remote API,
raw-record store and configuration are bundled in `Env`; the orchestrator
`Scraper.run_project` becomes `runProject`, which returns the final in-memory
state together with an ordered trace of observable effects (checkpoint saves,
list calls, single-issue fetches, raw-record writes).  The `while True` loop
is driven by explicit fuel; exhausting the fuel is reported as a distinct
`LoopExit.fuelOut` so that no theorem can confuse it with a genuine
termination of the Python loop.
-/

/-- Values of `last_status` stored in the checkpoint. -/
inductive Status where
  | unknown
  | running
  | success
  | failed
deriving DecidableEq, Repr

/-- One project's checkpoint record: `start_at`, `pending`, `total_fetched`,
`last_status` (src/scraper.py, `_ensure_project_state`). Counters are `Int`
like Python ints; non-negativity is proved, not assumed. -/
structure ProjState where
  start_at : Int
  pending : Int
  total_fetched : Int
  last_status : Status
deriving DecidableEq, Repr

/-- Outcome of the orchestrator's list call (scraper.py line 95,
`self.client.search_issues(jql, start_at=..., max_results=..., project_key=project)`):
either a page of record summaries (each carrying the `key` field, `none` when
missing), or a raised exception.  `raise` covers everything the call can
throw — in particular the TypeError from binding a keyword the client's
signature does not declare, which fires before any HTTP request, as well as
any raise out of `_get` (exhausted retries, non-retryable 4xx). -/
inductive SearchRes where
  | page (items : List (Option String))
  | raise
deriving DecidableEq, Repr

/-- External world of one `run_project` call: the behavior of the list call at
each (start_at, max_results), whether `get_issue` succeeds for a key, and the
scraper's configuration (`batch_size`, legacy `max_issues`). -/
structure Env where
  listPage : Int → Int → SearchRes
  fetchOk : String → Bool
  batch_size : Int
  max_issues : Option Int

/-- Observable effects of a run, in program order. -/
inductive Event where
  | save (st : ProjState)
  | search (startAt maxResults : Int)
  | fetch (key : String)
  | putRaw (key : String)
deriving DecidableEq, Repr

/-- Python truthiness of the `key` field: `if not key` is taken for a missing
key and for the empty string. -/
def truthyKey : Option String → Bool
  | none => false
  | some k => k ≠ ""

/-- Python truthiness of the optional `max_issues` int (`if self.max_issues`). -/
def truthyInt : Option Int → Bool
  | none => false
  | some m => m != 0

/-- Result of the inner `for issue_meta in to_process` loop
(src/scraper.py lines 106-139): updated local counters, raw store, emitted
events, and the key whose `get_issue` raised, if any. -/
structure ItemsRes where
  s : Int
  p : Int
  t : Int
  store : List String
  events : List Event
  err : Option String
deriving DecidableEq, Repr

/-- The inner per-record loop.  For each summary: a falsy key only advances
`start_at`; an already-present raw file advances `start_at` and decrements
positive `pending`; otherwise `get_issue` is called, the raw record written,
counters advanced and the checkpoint saved with status `running`; a failing
`get_issue` saves the checkpoint with status `failed` and aborts (`raise`). -/
def processItems (env : Env) (items : List (Option String)) (s p t : Int)
    (store : List String) : ItemsRes :=
  match items with
  | [] => ⟨s, p, t, store, [], none⟩
  | item :: rest =>
    match item with
    | none => processItems env rest (s + 1) p t store
    | some k =>
      if k = "" then processItems env rest (s + 1) p t store
      else if k ∈ store then
        processItems env rest (s + 1) (if 0 < p then p - 1 else p) t store
      else if env.fetchOk k then
        let s' := s + 1
        let p' := if 0 < p then p - 1 else p
        let t' := t + 1
        let st : ProjState := ⟨s', p', t', Status.running⟩
        let r := processItems env rest s' p' t' (store ++ [k])
        ⟨r.s, r.p, r.t, r.store, Event.fetch k :: Event.putRaw k :: Event.save st :: r.events, r.err⟩
      else
        ⟨s, p, t, store, [Event.fetch k, Event.save ⟨s, p, t, Status.failed⟩], some k⟩

/-- Computation of `effective_batch` at the top of the loop (lines 79-88);
`none` models the `break` when the legacy `max_issues` cap is reached. -/
def effectiveBatch (env : Env) (unlimited : Bool) (p t : Int) : Option Int :=
  if unlimited then some env.batch_size
  else
    let eb0 : Int := if 0 < p then min env.batch_size p else 0
    if truthyInt env.max_issues then
      let mi := (env.max_issues).getD 0
      let left : Int := if p = 0 then mi - t else p
      if left ≤ 0 then none
      else some (min (if eb0 = 0 then env.batch_size else eb0) (max 1 left))
    else some eb0

/-- How one `run_project` loop ended: a normal `break`, the re-`raise` of a
per-record failure (line 139), an exception raised by the list call itself
(line 95, uncaught inside the loop), or exhaustion of the model's fuel (no
Python analogue). -/
inductive LoopExit where
  | completed
  | errored (key : String)
  | searchRaised
  | fuelOut
deriving DecidableEq, Repr

/-- Result of the `while True` loop: final local counters, store, events, exit. -/
structure LoopRes where
  s : Int
  p : Int
  t : Int
  store : List String
  events : List Event
  exit : LoopExit
deriving DecidableEq, Repr

/-- Value of `to_process` for one page (lines 102-104): the page returned by
the list call, truncated to `pending` when bounded. -/
def pageItems (unlimited : Bool) (p : Int) (issues : List (Option String)) :
    List (Option String) :=
  if unlimited = false ∧ 0 < p then issues.take p.toNat else issues

/-- The `while True` loop of `run_project` (lines 78-154).  `unlimited` is
computed once before entry, as in the source. -/
def runLoop (env : Env) (unlimited : Bool) :
    Nat → Int → Int → Int → List String → LoopRes
  | 0, s, p, t, store => ⟨s, p, t, store, [], LoopExit.fuelOut⟩
  | fuel + 1, s, p, t, store =>
    match effectiveBatch env unlimited p t with
    | none => ⟨s, p, t, store, [], LoopExit.completed⟩
    | some eb =>
      if unlimited = false ∧ p = 0 then ⟨s, p, t, store, [], LoopExit.completed⟩
      else
        match env.listPage s eb with
        | SearchRes.raise => ⟨s, p, t, store, [Event.search s eb], LoopExit.searchRaised⟩
        | SearchRes.page issues =>
          if issues = [] then ⟨s, p, t, store, [Event.search s eb], LoopExit.completed⟩
          else
            let ir := processItems env (pageItems unlimited p issues) s p t store
            match ir.err with
            | some k =>
              ⟨ir.s, ir.p, ir.t, ir.store, Event.search s eb :: ir.events, LoopExit.errored k⟩
            | none =>
              let stb : ProjState := ⟨ir.s, ir.p, ir.t, Status.running⟩
              let evs := Event.search s eb :: (ir.events ++ [Event.save stb])
              if unlimited = false ∧ ir.p = 0 then
                ⟨ir.s, ir.p, ir.t, ir.store, evs, LoopExit.completed⟩
              else if (issues.length : Int) < eb then
                ⟨ir.s, ir.p, ir.t, ir.store, evs, LoopExit.completed⟩
              else
                let r := runLoop env unlimited fuel ir.s ir.p ir.t ir.store
                ⟨r.s, r.p, r.t, r.store, evs ++ r.events, r.exit⟩

/-- Whether `run_project` returned normally or let an exception escape to its
caller.  The translation shows the source never produces `raised`: the outer
`except` handler (lines 167-173) ends without re-raising. -/
inductive Outcome where
  | normal
  | raised
deriving DecidableEq, Repr

/-- Full result of one `run_project` invocation. -/
structure RunResult where
  state : ProjState
  store : List String
  events : List Event
  outcome : Outcome
  exit : LoopExit
deriving DecidableEq, Repr

/-- Model of `_ensure_project_state`: materialize the zero default when the project is
absent (without persisting it). -/
def ensureProjectState (st : Option ProjState) : ProjState :=
  st.getD ⟨0, 0, 0, Status.unknown⟩

/-- The checkpoint after the optional `addPending` step (lines 63-68):
`pending` is incremented only when `add_pending` is a positive int. -/
def initState (st0 : Option ProjState) (add : Int) : ProjState :=
  let st := ensureProjectState st0
  if 0 < add then { st with pending := st.pending + add } else st

/-- The save performed by the `addPending` step, when it runs. -/
def initEvents (st0 : Option ProjState) (add : Int) : List Event :=
  if 0 < add then [Event.save (initState st0 add)] else []

/-- Epilogue of `run_project`: the success block (lines 157-163) after a clean
loop exit, and the outer `except` handler (lines 167-173) after the loop's
re-raise — the handler persists `failed` and falls off the end of the function
without re-raising, so the outcome is `normal` in every case. -/
def finishRun (lastStat : Status) (ev0 : List Event) (lr : LoopRes) : RunResult :=
  match lr.exit with
  | LoopExit.completed =>
    let fin : ProjState := ⟨lr.s, lr.p, lr.t, Status.success⟩
    ⟨fin, lr.store, ev0 ++ lr.events ++ [Event.save fin], Outcome.normal, LoopExit.completed⟩
  | LoopExit.errored k =>
    let fin : ProjState := ⟨lr.s, lr.p, lr.t, Status.failed⟩
    ⟨fin, lr.store, ev0 ++ lr.events ++ [Event.save fin], Outcome.normal, LoopExit.errored k⟩
  | LoopExit.searchRaised =>
    let fin : ProjState := ⟨lr.s, lr.p, lr.t, Status.failed⟩
    ⟨fin, lr.store, ev0 ++ lr.events ++ [Event.save fin], Outcome.normal,
      LoopExit.searchRaised⟩
  | LoopExit.fuelOut =>
    ⟨⟨lr.s, lr.p, lr.t, lastStat⟩, lr.store, ev0 ++ lr.events, Outcome.normal,
      LoopExit.fuelOut⟩

/-- Model of `Scraper.run_project` (lines 55-173): optional `addPending` increment and
immediate save, the fetch loop (`unlimited_mode` computed once, from the
post-increment `pending`), then the epilogue. -/
def runProject (env : Env) (fuel : Nat) (st0 : Option ProjState) (add : Int)
    (store0 : List String) : RunResult :=
  let st1 := initState st0 add
  let unlimited := st1.pending == 0 && (env.max_issues).isNone
  finishRun st1.last_status (initEvents st0 add)
    (runLoop env unlimited fuel st1.start_at st1.pending st1.total_fetched store0)

/-- Checkpoint snapshots persisted by `_save_state`, in order. -/
def savesOf : List Event → List ProjState
  | [] => []
  | Event.save st :: r => st :: savesOf r
  | _ :: r => savesOf r

/-- Calls to `search_issues`, as (startAt, maxResults) pairs, in order. -/
def searchesOf : List Event → List (Int × Int)
  | [] => []
  | Event.search a b :: r => (a, b) :: searchesOf r
  | _ :: r => searchesOf r

/-- Calls to `get_issue`, in order. -/
def fetchesOf : List Event → List String
  | [] => []
  | Event.fetch k :: r => k :: fetchesOf r
  | _ :: r => fetchesOf r

/-- Raw-record files written, in order. -/
def putsOf : List Event → List String
  | [] => []
  | Event.putRaw k :: r => k :: putsOf r
  | _ :: r => putsOf r

/-- The checkpoint visible on disk after a run: the last saved snapshot, or
the previous contents when the run never saved. -/
def lastSavedState (prev : Option ProjState) (evs : List Event) : Option ProjState :=
  match (savesOf evs).getLast? with
  | some st => some st
  | none => prev

/-- One invocation of the orchestrator in a sequence of runs. -/
structure RunSpec where
  env : Env
  fuel : Nat
  add : Int

/-- All checkpoint snapshots persisted across a sequence of invocations on one
project, threading the on-disk checkpoint and the raw store between runs. -/
def seqSaves (st : Option ProjState) (store : List String) :
    List RunSpec → List ProjState
  | [] => []
  | rs :: rest =>
    let r := runProject rs.env rs.fuel st rs.add store
    savesOf r.events ++ seqSaves (lastSavedState st r.events) r.store rest

/-- Parameter names of `JiraClient.search_issues` (jira_client.py line 158):
`def search_issues(self, jql, start_at=0, max_results=50)` — and no
`**kwargs` catch-all. -/
def searchIssuesParams : List String := ["jql", "start_at", "max_results"]

/-- Keyword arguments the orchestrator passes at scraper.py line 95
(`jql` is passed positionally there). -/
def scraperSearchKwargs : List String := ["start_at", "max_results", "project_key"]

/-- Python binds the call only when every keyword passed is a declared
parameter of the callee; otherwise argument binding raises TypeError before
the function body — and hence before any HTTP request — runs. -/
def searchCallBinds : Bool :=
  scraperSearchKwargs.all (fun k => decide (k ∈ searchIssuesParams))

/-- The orchestrator's composed list call over a remote source with ordered
record keys `km` and page size config `b`: were the keywords to bind, the
client would return the slice of the ordered result set; since `project_key`
is not a parameter of `search_issues`, the call raises instead.  `get_issue`
succeeds whenever reached; no legacy cap. -/
def listEnv (km : List String) (b : Int) : Env :=
  ⟨fun s eb =>
      if searchCallBinds then
        SearchRes.page (((km.map some).drop s.toNat).take eb.toNat)
      else SearchRes.raise,
    fun _ => true, b, none⟩

/-- The five-record remote source of the spec's DEMO scenario. -/
def demoRemote : List String := ["DEMO-1", "DEMO-2", "DEMO-3", "DEMO-4", "DEMO-5"]

/-- DEMO scenario environment: 5 records, page size 2. -/
def demoEnv : Env := listEnv demoRemote 2

/-- DEMO scenario environment in which `get_issue` fails on the 2nd record. -/
def failEnv : Env :=
  { listEnv demoRemote 2 with fetchOk := fun k => decide (k ≠ "DEMO-2") }

/-- From `main.py`: `args.limit` defaults to 10, and `add_map` passes it
through per project when it is truthy, so the per-project additional count is
the (possibly defaulted) limit unless that limit is falsy (0). -/
def mainAddPending (limitArg : Option Int) : Int :=
  let l := limitArg.getD 10
  if l = 0 then 0 else l

/-- Twenty distinct remote keys, used for the crash-recovery scenario. -/
def wideRemote : List String :=
  ["R01", "R02", "R03", "R04", "R05", "R06", "R07", "R08", "R09", "R10",
   "R11", "R12", "R13", "R14", "R15", "R16", "R17", "R18", "R19", "R20"]

/-!
Embedding of `JiraClient._get` (src/jira_client.py lines 107-156): a retry
loop over HTTP attempts.  Attempt number `tries` is incremented at the top of
each iteration; the `n`-th attempt observes `resp n`.
-/

/-- Outcome of one `session.get` attempt: a transport-level exception
(`requests.RequestException`) or a response with a status code, an optional
`Retry-After` header, and whether the body parses as JSON. -/
inductive HttpStep where
  | connError
  | resp (status : Nat) (retryAfter : Option String) (parses : Bool)
deriving DecidableEq, Repr

/-- Result of `_get`: the JSON return or a raised error, each carrying the
number of attempts made and the list of back-off sleeps performed; `spin`
marks fuel exhaustion of the model (the Python loop would keep iterating). -/
inductive GetResult where
  | ok (attempts : Nat) (waits : List Nat)
  | fail (attempts : Nat) (waits : List Nat)
  | spin
deriving DecidableEq, Repr

/-- Record one `time.sleep` in front of a loop continuation's result. -/
def addWait (w : Nat) : GetResult → GetResult
  | GetResult.ok a ws => GetResult.ok a (w :: ws)
  | GetResult.fail a ws => GetResult.fail a (w :: ws)
  | GetResult.spin => GetResult.spin

/-- Number of attempts a `_get` result consumed. -/
def attemptsOf : GetResult → Nat
  | GetResult.ok a _ => a
  | GetResult.fail a _ => a
  | GetResult.spin => 0

/-- Python `str.isdigit` on the `Retry-After` header combined with its
truthiness test (`retry_after and retry_after.isdigit()`). -/
def isDigits (x : String) : Bool :=
  !x.data.isEmpty && x.data.all Char.isDigit

/-- Value of `int(...)` on an all-digit string. -/
def digitsVal (l : List Char) : Nat :=
  l.foldl (fun acc c => acc * 10 + (c.toNat - 48)) 0

/-- Wait chosen in the 429 branch: a numeric `Retry-After` hint when present,
otherwise exponential backoff capped at 60. -/
def retryAfterWait (t : Nat) (ra : Option String) : Nat :=
  match ra with
  | some x => if isDigits x then digitsVal x.data else min (2 ^ t) 60
  | none => min (2 ^ t) 60

/-- The `while True` retry loop of `_get`, one constructor case per branch of
the source: connection errors retried up to 5 attempts with backoff capped at
60; 429 retried up to 8 attempts, sleeping the `Retry-After` hint or capped
backoff (the raising 8th attempt sleeps first, as in the source); 5xx retried
up to 5 attempts with capped backoff; other non-2xx raise immediately;
unparseable bodies retried up to 3 attempts with backoff capped at 30. -/
def jiraGetAux (resp : Nat → HttpStep) : Nat → Nat → GetResult
  | 0, _ => GetResult.spin
  | fuel + 1, tries =>
    let t := tries + 1
    match resp t with
    | HttpStep.connError =>
      if 5 ≤ t then GetResult.fail t []
      else addWait (min (2 ^ t) 60) (jiraGetAux resp fuel t)
    | HttpStep.resp s ra parses =>
      if s = 429 then
        if 8 ≤ t then GetResult.fail t [retryAfterWait t ra]
        else addWait (retryAfterWait t ra) (jiraGetAux resp fuel t)
      else if 500 ≤ s ∧ s < 600 then
        if 5 ≤ t then GetResult.fail t []
        else addWait (min (2 ^ t) 60) (jiraGetAux resp fuel t)
      else if 400 ≤ s then GetResult.fail t []
      else if parses then GetResult.ok t []
      else if 3 ≤ t then GetResult.fail t []
      else addWait (min (2 ^ t) 30) (jiraGetAux resp fuel t)

/-- Model of `_get` from a fresh call: 8 iterations of fuel always suffice
(`jiraGet_no_spin` below), so this is the loop's full behavior. -/
def jiraGet (resp : Nat → HttpStep) : GetResult := jiraGetAux resp 8 0

/-! ### Retry-loop lemmas for `_get` -/

theorem addWait_attempts (w : Nat) (r : GetResult) :
    attemptsOf (addWait w r) = attemptsOf r := by
  cases r <;> rfl

theorem jiraGetAux_attempts_le (resp : Nat → HttpStep) :
    ∀ fuel tries, attemptsOf (jiraGetAux resp fuel tries) ≤ tries + fuel := by
  intro fuel
  induction fuel with
  | zero => intro tries; simp [jiraGetAux, attemptsOf]
  | succ f ih =>
    intro tries
    have hrec := ih (tries + 1)
    simp only [jiraGetAux]
    cases h : resp (tries + 1) with
    | connError =>
      dsimp only
      by_cases h5 : 5 ≤ tries + 1
      · rw [if_pos h5]; simp only [attemptsOf]; omega
      · rw [if_neg h5, addWait_attempts]; omega
    | resp s ra parses =>
      dsimp only
      by_cases h429 : s = 429
      · rw [if_pos h429]
        by_cases h8 : 8 ≤ tries + 1
        · rw [if_pos h8]; simp only [attemptsOf]; omega
        · rw [if_neg h8, addWait_attempts]; omega
      · rw [if_neg h429]
        by_cases hsr : 500 ≤ s ∧ s < 600
        · rw [if_pos hsr]
          by_cases h5 : 5 ≤ tries + 1
          · rw [if_pos h5]; simp only [attemptsOf]; omega
          · rw [if_neg h5, addWait_attempts]; omega
        · rw [if_neg hsr]
          by_cases h4 : 400 ≤ s
          · rw [if_pos h4]; simp only [attemptsOf]; omega
          · rw [if_neg h4]
            by_cases hp : parses = true
            · rw [if_pos hp]; simp only [attemptsOf]; omega
            · rw [if_neg hp]
              by_cases h3 : 3 ≤ tries + 1
              · rw [if_pos h3]; simp only [attemptsOf]; omega
              · rw [if_neg h3, addWait_attempts]; omega

theorem jiraGetAux_no_spin (resp : Nat → HttpStep) :
    ∀ fuel tries, 8 ≤ fuel + tries → 1 ≤ fuel →
      jiraGetAux resp fuel tries ≠ GetResult.spin := by
  intro fuel
  induction fuel with
  | zero => intro tries h h1; omega
  | succ f ih =>
    intro tries h8 _
    have hstep : ∀ w : Nat, 8 ≤ f + (tries + 1) → 1 ≤ f →
        addWait w (jiraGetAux resp f (tries + 1)) ≠ GetResult.spin := by
      intro w hf hf1
      have hne := ih (tries + 1) hf hf1
      cases hr : jiraGetAux resp f (tries + 1) with
      | ok a ws => simp [addWait]
      | fail a ws => simp [addWait]
      | spin => exact absurd hr hne
    simp only [jiraGetAux]
    cases h : resp (tries + 1) with
    | connError =>
      dsimp only
      by_cases h5 : 5 ≤ tries + 1
      · rw [if_pos h5]; simp
      · rw [if_neg h5]; exact hstep _ (by omega) (by omega)
    | resp s ra parses =>
      dsimp only
      by_cases h429 : s = 429
      · rw [if_pos h429]
        by_cases hb8 : 8 ≤ tries + 1
        · rw [if_pos hb8]; simp
        · rw [if_neg hb8]; exact hstep _ (by omega) (by omega)
      · rw [if_neg h429]
        by_cases hsr : 500 ≤ s ∧ s < 600
        · rw [if_pos hsr]
          by_cases h5 : 5 ≤ tries + 1
          · rw [if_pos h5]; simp
          · rw [if_neg h5]; exact hstep _ (by omega) (by omega)
        · rw [if_neg hsr]
          by_cases h4 : 400 ≤ s
          · rw [if_pos h4]; simp
          · rw [if_neg h4]
            by_cases hp : parses = true
            · rw [if_pos hp]; simp
            · rw [if_neg hp]
              by_cases h3 : 3 ≤ tries + 1
              · rw [if_pos h3]; simp
              · rw [if_neg h3]; exact hstep _ (by omega) (by omega)

theorem jiraGetAux_conn_at_bound (resp : Nat → HttpStep) (fuel tries : Nat)
    (h : resp (tries + 1) = HttpStep.connError) (h5 : 5 ≤ tries + 1) :
    jiraGetAux resp (fuel + 1) tries = GetResult.fail (tries + 1) [] := by
  simp only [jiraGetAux, h]
  split_ifs <;> first | rfl | omega

theorem jiraGetAux_5xx_at_bound (resp : Nat → HttpStep) (fuel tries s : Nat)
    (ra : Option String) (pr : Bool) (h : resp (tries + 1) = HttpStep.resp s ra pr)
    (h500 : 500 ≤ s) (h600 : s < 600) (h5 : 5 ≤ tries + 1) :
    jiraGetAux resp (fuel + 1) tries = GetResult.fail (tries + 1) [] := by
  simp only [jiraGetAux, h]
  split_ifs <;> first | rfl | omega | exact absurd ⟨h500, h600⟩ (by assumption)

theorem jiraGetAux_429_at_bound (resp : Nat → HttpStep) (fuel tries : Nat)
    (ra : Option String) (pr : Bool) (h : resp (tries + 1) = HttpStep.resp 429 ra pr)
    (h8 : 8 ≤ tries + 1) :
    jiraGetAux resp (fuel + 1) tries =
      GetResult.fail (tries + 1) [retryAfterWait (tries + 1) ra] := by
  simp only [jiraGetAux, h]
  split_ifs <;> first | rfl | omega

/-- C9: the `_get` retry loop always terminates: 8 iterations of fuel are
never exhausted and no call makes more than 8 attempts; a connection error or
5xx on the 5th or later attempt raises instead of retrying; a 429 on the 8th
or later attempt raises (after honoring the wait hint) instead of retrying;
and on homogeneous response sequences the loop fails after exactly 5 attempts
(connection errors, 5xx — with doubling backoff) or exactly 8 attempts
(rate-limiting — backoff capped at 60 without a hint, or exactly the numeric
`Retry-After` hint when present). -/
theorem jira_get_bounded_retries :
    (∀ resp, jiraGet resp ≠ GetResult.spin) ∧
    (∀ resp, attemptsOf (jiraGet resp) ≤ 8) ∧
    (∀ resp fuel tries, resp (tries + 1) = HttpStep.connError → 5 ≤ tries + 1 →
      jiraGetAux resp (fuel + 1) tries = GetResult.fail (tries + 1) []) ∧
    (∀ resp fuel tries s ra pr, resp (tries + 1) = HttpStep.resp s ra pr →
      500 ≤ s → s < 600 → 5 ≤ tries + 1 →
      jiraGetAux resp (fuel + 1) tries = GetResult.fail (tries + 1) []) ∧
    (∀ resp fuel tries ra pr, resp (tries + 1) = HttpStep.resp 429 ra pr →
      8 ≤ tries + 1 →
      jiraGetAux resp (fuel + 1) tries =
        GetResult.fail (tries + 1) [retryAfterWait (tries + 1) ra]) ∧
    jiraGet (fun _ => HttpStep.connError) = GetResult.fail 5 [2, 4, 8, 16] ∧
    jiraGet (fun _ => HttpStep.resp 503 none true) = GetResult.fail 5 [2, 4, 8, 16] ∧
    jiraGet (fun _ => HttpStep.resp 429 none true) =
      GetResult.fail 8 [2, 4, 8, 16, 32, 60, 60, 60] ∧
    jiraGet (fun _ => HttpStep.resp 429 (some "7") true) =
      GetResult.fail 8 [7, 7, 7, 7, 7, 7, 7, 7] := by
  refine ⟨fun resp => jiraGetAux_no_spin resp 8 0 (by omega) (by omega),
    fun resp => by have := jiraGetAux_attempts_le resp 8 0; simpa [jiraGet] using this,
    fun resp fuel tries h h5 => jiraGetAux_conn_at_bound resp fuel tries h h5,
    fun resp fuel tries s ra pr h h500 h600 h5 =>
      jiraGetAux_5xx_at_bound resp fuel tries s ra pr h h500 h600 h5,
    fun resp fuel tries ra pr h h8 => jiraGetAux_429_at_bound resp fuel tries ra pr h h8,
    by decide, by decide, by decide, by decide⟩

theorem jira_get_bounded_retries_witness :
    jiraGetAux (fun _ => HttpStep.connError) 1 4 = GetResult.fail 5 [] ∧
    jiraGetAux (fun _ => HttpStep.resp 503 none true) 1 4 = GetResult.fail 5 [] ∧
    jiraGetAux (fun _ => HttpStep.resp 429 (some "7") true) 1 7 =
      GetResult.fail 8 [retryAfterWait 8 (some "7")] :=
  ⟨jira_get_bounded_retries.2.2.1 (fun _ => HttpStep.connError) 0 4 rfl (by omega),
   jira_get_bounded_retries.2.2.2.1 (fun _ => HttpStep.resp 503 none true) 0 4 503 none true
     rfl (by omega) (by omega) (by omega),
   jira_get_bounded_retries.2.2.2.2.1 (fun _ => HttpStep.resp 429 (some "7") true) 0 7
     (some "7") true rfl (by omega)⟩

/-! ### Trace bookkeeping lemmas -/

theorem savesOf_append (a b : List Event) :
    savesOf (a ++ b) = savesOf a ++ savesOf b := by
  induction a with
  | nil => rfl
  | cons e r ih => cases e <;> simp [savesOf, ih]

theorem fetchesOf_append (a b : List Event) :
    fetchesOf (a ++ b) = fetchesOf a ++ fetchesOf b := by
  induction a with
  | nil => rfl
  | cons e r ih => cases e <;> simp [fetchesOf, ih]

theorem getLast?_snoc {α : Type} (l : List α) (x : α) :
    (l ++ [x]).getLast? = some x := by
  simp [List.getLast?_append]

theorem savesOf_cons_search (a b : Int) (r : List Event) :
    savesOf (Event.search a b :: r) = savesOf r := rfl

theorem savesOf_getLast_snoc (e1 e2 : List Event) (st : ProjState) :
    (savesOf (e1 ++ e2 ++ [Event.save st])).getLast? = some st := by
  rw [List.append_assoc, savesOf_append, savesOf_append, ← List.append_assoc]
  simp only [savesOf]
  exact getLast?_snoc _ _

theorem finishRun_exit (ls : Status) (ev0 : List Event) (lr : LoopRes) :
    (finishRun ls ev0 lr).exit = lr.exit := by
  rcases lr with ⟨s, p, t, store, ev, ex⟩
  cases ex <;> rfl

theorem finishRun_outcome (ls : Status) (ev0 : List Event) (lr : LoopRes) :
    (finishRun ls ev0 lr).outcome = Outcome.normal := by
  rcases lr with ⟨s, p, t, store, ev, ex⟩
  cases ex <;> rfl

theorem finishRun_errored (ls : Status) (ev0 : List Event) (lr : LoopRes) (k : String)
    (h : lr.exit = LoopExit.errored k) :
    finishRun ls ev0 lr =
      ⟨⟨lr.s, lr.p, lr.t, Status.failed⟩, lr.store,
        ev0 ++ lr.events ++ [Event.save ⟨lr.s, lr.p, lr.t, Status.failed⟩],
        Outcome.normal, LoopExit.errored k⟩ := by
  rcases lr with ⟨s, p, t, store, ev, ex⟩
  cases ex <;> simp_all [finishRun]

theorem finishRun_events_completed (ls : Status) (ev0 : List Event) (lr : LoopRes)
    (h : lr.exit = LoopExit.completed) :
    (finishRun ls ev0 lr).events =
      ev0 ++ lr.events ++ [Event.save ⟨lr.s, lr.p, lr.t, Status.success⟩] := by
  rcases lr with ⟨s, p, t, store, ev, ex⟩
  cases ex <;> simp_all [finishRun]

theorem finishRun_searchRaised (ls : Status) (ev0 : List Event) (lr : LoopRes)
    (h : lr.exit = LoopExit.searchRaised) :
    finishRun ls ev0 lr =
      ⟨⟨lr.s, lr.p, lr.t, Status.failed⟩, lr.store,
        ev0 ++ lr.events ++ [Event.save ⟨lr.s, lr.p, lr.t, Status.failed⟩],
        Outcome.normal, LoopExit.searchRaised⟩ := by
  rcases lr with ⟨s, p, t, store, ev, ex⟩
  cases ex <;> simp_all [finishRun]

theorem finishRun_events_fuelOut (ls : Status) (ev0 : List Event) (lr : LoopRes)
    (h : lr.exit = LoopExit.fuelOut) :
    (finishRun ls ev0 lr).events = ev0 ++ lr.events := by
  rcases lr with ⟨s, p, t, store, ev, ex⟩
  cases ex <;> simp_all [finishRun]

theorem finishRun_completed (ls : Status) (ev0 : List Event) (lr : LoopRes)
    (h : lr.exit = LoopExit.completed) :
    finishRun ls ev0 lr =
      ⟨⟨lr.s, lr.p, lr.t, Status.success⟩, lr.store,
        ev0 ++ lr.events ++ [Event.save ⟨lr.s, lr.p, lr.t, Status.success⟩],
        Outcome.normal, LoopExit.completed⟩ := by
  rcases lr with ⟨s, p, t, store, ev, ex⟩
  cases ex <;> simp_all [finishRun]

theorem finishRun_head (ls : Status) (ev0 : List Event) (lr : LoopRes) (a : Event)
    (rest : List Event) (h : ev0 = a :: rest) :
    (finishRun ls ev0 lr).events.head? = some a := by
  rcases lr with ⟨s, p, t, store, ev, ex⟩
  cases ex <;> simp [finishRun, h]

/-! ### A case analysis for one iteration of the fetch loop -/

theorem runLoop_succ_shape (env : Env) (u : Bool) (f : Nat) (s p t : Int)
    (store : List String) :
    runLoop env u (f + 1) s p t store = ⟨s, p, t, store, [], LoopExit.completed⟩ ∨
    (∃ eb, runLoop env u (f + 1) s p t store =
      ⟨s, p, t, store, [Event.search s eb], LoopExit.searchRaised⟩) ∨
    (∃ eb, runLoop env u (f + 1) s p t store =
      ⟨s, p, t, store, [Event.search s eb], LoopExit.completed⟩) ∨
    (∃ eb items ir k, ir = processItems env items s p t store ∧
      ir.err = some k ∧
      runLoop env u (f + 1) s p t store =
        ⟨ir.s, ir.p, ir.t, ir.store, Event.search s eb :: ir.events, LoopExit.errored k⟩) ∨
    (∃ eb items ir, ir = processItems env items s p t store ∧
      ir.err = none ∧
      runLoop env u (f + 1) s p t store =
        ⟨ir.s, ir.p, ir.t, ir.store,
          Event.search s eb :: (ir.events ++ [Event.save ⟨ir.s, ir.p, ir.t, Status.running⟩]),
          LoopExit.completed⟩) ∨
    (∃ eb items ir, ir = processItems env items s p t store ∧
      ir.err = none ∧
      runLoop env u (f + 1) s p t store =
        ⟨(runLoop env u f ir.s ir.p ir.t ir.store).s,
          (runLoop env u f ir.s ir.p ir.t ir.store).p,
          (runLoop env u f ir.s ir.p ir.t ir.store).t,
          (runLoop env u f ir.s ir.p ir.t ir.store).store,
          (Event.search s eb :: (ir.events ++ [Event.save ⟨ir.s, ir.p, ir.t, Status.running⟩])) ++
            (runLoop env u f ir.s ir.p ir.t ir.store).events,
          (runLoop env u f ir.s ir.p ir.t ir.store).exit⟩) := by
  simp only [runLoop]
  cases heb : effectiveBatch env u p t with
  | none => exact Or.inl rfl
  | some eb =>
    dsimp only
    by_cases hbrk : u = false ∧ p = 0
    · rw [if_pos hbrk]; exact Or.inl rfl
    · rw [if_neg hbrk]
      cases hpg : env.listPage s eb with
      | raise =>
        dsimp only
        exact Or.inr (Or.inl ⟨eb, rfl⟩)
      | page issues =>
        dsimp only
        by_cases hiss : issues = []
        · rw [if_pos hiss]; exact Or.inr (Or.inr (Or.inl ⟨eb, rfl⟩))
        · rw [if_neg hiss]
          cases herr : (processItems env (pageItems u p issues) s p t store).err with
          | some k =>
            dsimp only
            exact Or.inr (Or.inr (Or.inr (Or.inl ⟨eb, _, _, k, rfl, herr, rfl⟩)))
          | none =>
            dsimp only
            by_cases hpz : u = false ∧ (processItems env (pageItems u p issues) s p t store).p = 0
            · rw [if_pos hpz]
              exact Or.inr (Or.inr (Or.inr (Or.inr (Or.inl ⟨eb, _, _, rfl, herr, rfl⟩))))
            · rw [if_neg hpz]
              by_cases hlen : ((issues.length : Int)) < eb
              · rw [if_pos hlen]
                exact Or.inr (Or.inr (Or.inr (Or.inr (Or.inl ⟨eb, _, _, rfl, herr, rfl⟩))))
              · rw [if_neg hlen]
                exact Or.inr (Or.inr (Or.inr (Or.inr (Or.inr ⟨eb, _, _, rfl, herr, rfl⟩))))

/-! ### Pending is never negative (C8) -/

theorem processItems_pending (env : Env) :
    ∀ (items : List (Option String)) (s p t : Int) (store : List String), 0 ≤ p →
      (∀ q ∈ savesOf (processItems env items s p t store).events, 0 ≤ q.pending) ∧
      0 ≤ (processItems env items s p t store).p := by
  intro items
  induction items with
  | nil =>
    intro s p t store hp
    exact ⟨by simp [processItems, savesOf], hp⟩
  | cons item rest ih =>
    intro s p t store hp
    have hdec : (0 : Int) ≤ (if 0 < p then p - 1 else p) := by split_ifs <;> omega
    cases item with
    | none => simpa only [processItems] using ih (s + 1) p t store hp
    | some k =>
      by_cases hk : k = ""
      · subst hk
        simpa [processItems] using ih (s + 1) p t store hp
      · by_cases hmem : k ∈ store
        · simpa [processItems, hk, hmem] using
            ih (s + 1) (if 0 < p then p - 1 else p) t store hdec
        · by_cases hf : env.fetchOk k = true
          · have hrec := ih (s + 1) (if 0 < p then p - 1 else p) (t + 1) (store ++ [k]) hdec
            have hsav : savesOf (processItems env (some k :: rest) s p t store).events =
                ProjState.mk (s + 1) (if 0 < p then p - 1 else p) (t + 1) Status.running ::
                  savesOf (processItems env rest (s + 1) (if 0 < p then p - 1 else p)
                    (t + 1) (store ++ [k])).events := by
              simp [processItems, hk, hmem, hf, savesOf]
            have hps : (processItems env (some k :: rest) s p t store).p =
                (processItems env rest (s + 1) (if 0 < p then p - 1 else p)
                  (t + 1) (store ++ [k])).p := by
              simp [processItems, hk, hmem, hf]
            refine ⟨?_, by rw [hps]; exact hrec.2⟩
            intro q hq
            rw [hsav] at hq
            rcases List.mem_cons.mp hq with h1 | h2
            · subst h1; exact hdec
            · exact hrec.1 q h2
          · have hsav : savesOf (processItems env (some k :: rest) s p t store).events =
                [ProjState.mk s p t Status.failed] := by
              simp [processItems, hk, hmem, hf, savesOf]
            have hps : (processItems env (some k :: rest) s p t store).p = p := by
              simp [processItems, hk, hmem, hf]
            refine ⟨?_, by rw [hps]; exact hp⟩
            intro q hq
            rw [hsav] at hq
            rcases List.mem_singleton.mp hq with h1
            subst h1; exact hp

theorem runLoop_pending (env : Env) (u : Bool) :
    ∀ (fuel : Nat) (s p t : Int) (store : List String), 0 ≤ p →
      (∀ q ∈ savesOf (runLoop env u fuel s p t store).events, 0 ≤ q.pending) ∧
      0 ≤ (runLoop env u fuel s p t store).p := by
  intro fuel
  induction fuel with
  | zero => intro s p t store hp; exact ⟨by simp [runLoop, savesOf], hp⟩
  | succ f ih =>
    intro s p t store hp
    rcases runLoop_succ_shape env u f s p t store with
      h | ⟨eb, h⟩ | ⟨eb, h⟩ | ⟨eb, items, ir, k, hir, herr, h⟩ |
      ⟨eb, items, ir, hir, herr, h⟩ | ⟨eb, items, ir, hir, herr, h⟩
    · rw [h]; exact ⟨by simp [savesOf], hp⟩
    · rw [h]; exact ⟨by simp [savesOf], hp⟩
    · rw [h]; exact ⟨by simp [savesOf], hp⟩
    · have hi := processItems_pending env items s p t store hp
      rw [← hir] at hi
      rw [h]
      exact ⟨fun q hq => hi.1 q (by simpa [savesOf] using hq), hi.2⟩
    · have hi := processItems_pending env items s p t store hp
      rw [← hir] at hi
      rw [h]
      refine ⟨fun q hq => ?_, hi.2⟩
      rw [savesOf_cons_search, savesOf_append] at hq
      rcases List.mem_append.mp hq with h1 | h2
      · exact hi.1 q h1
      · rcases List.mem_singleton.mp (by simpa [savesOf] using h2) with h3
        subst h3; exact hi.2
    · have hi := processItems_pending env items s p t store hp
      rw [← hir] at hi
      have hr := ih ir.s ir.p ir.t ir.store hi.2
      rw [h]
      refine ⟨fun q hq => ?_, hr.2⟩
      rw [List.cons_append, savesOf_cons_search, savesOf_append, savesOf_append] at hq
      rcases List.mem_append.mp hq with h1 | h2
      · rcases List.mem_append.mp h1 with h3 | h4
        · exact hi.1 q h3
        · rcases List.mem_singleton.mp (by simpa [savesOf] using h4) with h5
          subst h5; exact hi.2
      · exact hr.1 q h2

/-- C8: starting from a non-negative `pending`, every checkpoint ever
persisted by `run_project` has `pending ≥ 0`, and so does the final state:
`addPending` only adds a positive amount, and both decrement sites are guarded
by `pending > 0`. -/
theorem pending_never_negative (env : Env) (fuel : Nat) (st0 : Option ProjState)
    (add : Int) (store0 : List String)
    (hp : 0 ≤ (ensureProjectState st0).pending) :
    ((savesOf (runProject env fuel st0 add store0).events).all
      (fun q => decide (0 ≤ q.pending)) = true) ∧
    0 ≤ (runProject env fuel st0 add store0).state.pending := by
  have hp1 : 0 ≤ (initState st0 add).pending := by
    by_cases ha : 0 < add
    · simp only [initState, if_pos ha]; omega
    · simp only [initState, if_neg ha]; exact hp
  have hloop := runLoop_pending env ((initState st0 add).pending == 0 && (env.max_issues).isNone)
    fuel (initState st0 add).start_at (initState st0 add).pending
    (initState st0 add).total_fetched store0 hp1
  have hx : runProject env fuel st0 add store0 =
      finishRun (initState st0 add).last_status (initEvents st0 add)
        (runLoop env ((initState st0 add).pending == 0 && (env.max_issues).isNone) fuel
          (initState st0 add).start_at (initState st0 add).pending
          (initState st0 add).total_fetched store0) := rfl
  rw [hx]
  have hev0 : ∀ q ∈ savesOf (initEvents st0 add), 0 ≤ q.pending := by
    intro q hq
    by_cases ha : 0 < add
    · simp only [initEvents, if_pos ha, savesOf] at hq
      rcases List.mem_singleton.mp hq with h1
      subst h1; exact hp1
    · simp [initEvents, if_neg ha, savesOf] at hq
  set lr := runLoop env ((initState st0 add).pending == 0 && (env.max_issues).isNone) fuel
    (initState st0 add).start_at (initState st0 add).pending
    (initState st0 add).total_fetched store0 with hlr
  have hall : ∀ (fin : ProjState), 0 ≤ fin.pending →
      (savesOf (initEvents st0 add ++ lr.events ++ [Event.save fin])).all
        (fun q => decide (0 ≤ q.pending)) = true := by
    intro fin hfin
    rw [List.all_eq_true]
    intro q hq
    rw [List.append_assoc, savesOf_append, savesOf_append] at hq
    rcases List.mem_append.mp hq with h1 | h2
    · exact decide_eq_true (hev0 q h1)
    · rcases List.mem_append.mp h2 with h3 | h4
      · exact decide_eq_true (hloop.1 q h3)
      · rcases List.mem_singleton.mp (by simpa [savesOf] using h4) with h5
        subst h5; exact decide_eq_true hfin
  rcases hex : lr.exit with _ | k | _ | _
  · rw [finishRun] ; rw [hex] ; exact ⟨hall _ hloop.2, hloop.2⟩
  · rw [finishRun] ; rw [hex] ; exact ⟨hall _ hloop.2, hloop.2⟩
  · rw [finishRun] ; rw [hex] ; exact ⟨hall _ hloop.2, hloop.2⟩
  · rw [finishRun] ; rw [hex]
    refine ⟨?_, hloop.2⟩
    rw [List.all_eq_true]
    intro q hq
    rw [savesOf_append] at hq
    rcases List.mem_append.mp hq with h1 | h2
    · exact decide_eq_true (hev0 q h1)
    · exact decide_eq_true (hloop.1 q h2)

theorem pending_never_negative_witness :
    (0 : Int) ≤ (ensureProjectState none).pending ∧
    (((savesOf (runProject demoEnv 10 none 3 []).events).all
      (fun q => decide (0 ≤ q.pending)) = true) ∧
    0 ≤ (runProject demoEnv 10 none 3 []).state.pending) :=
  ⟨by decide, pending_never_negative demoEnv 10 none 3 [] (by decide)⟩

/-! ### Cursor monotonicity (C7) -/

/-- Last element of a list, with a default for the empty list. -/
def lastD {α : Type} : List α → α → α
  | [], d => d
  | a :: r, _ => lastD r a

theorem lastD_append {α : Type} (l2 : List α) :
    ∀ (l1 : List α) (d : α), lastD (l1 ++ l2) d = lastD l2 (lastD l1 d) := by
  induction l2 with
  | nil =>
    intro l1 d
    induction l1 generalizing d with
    | nil => rfl
    | cons a r ih => simpa [lastD] using ih a
  | cons b r2 ih2 =>
    intro l1 d
    induction l1 generalizing d with
    | nil => rfl
    | cons a r ih => simpa [lastD] using ih a

theorem chain_glue (c : Int) (l1 l2 : List Int)
    (h1 : List.Chain' (· ≤ ·) (c :: l1))
    (h2 : List.Chain' (· ≤ ·) (lastD l1 c :: l2)) :
    List.Chain' (· ≤ ·) (c :: (l1 ++ l2)) := by
  induction l1 generalizing c with
  | nil => simpa [lastD] using h2
  | cons a r ih =>
    rw [List.cons_append]
    exact List.chain'_cons.mpr
      ⟨(List.chain'_cons.mp h1).1,
        ih a (List.chain'_cons.mp h1).2 (by simpa [lastD] using h2)⟩

theorem chain_base_weaken (a b : Int) (l : List Int) (hab : a ≤ b)
    (h : List.Chain' (· ≤ ·) (b :: l)) : List.Chain' (· ≤ ·) (a :: l) := by
  cases l with
  | nil => simp
  | cons x r =>
    exact List.chain'_cons.mpr
      ⟨le_trans hab (List.chain'_cons.mp h).1, (List.chain'_cons.mp h).2⟩

theorem lastD_base_weaken {c : Int} (l : List Int) (a b : Int)
    (hb : lastD l b ≤ c) (hab : a ≤ b) (hbc : b ≤ c) : lastD l a ≤ c := by
  cases l with
  | nil => exact le_trans hab hbc
  | cons x r => simpa [lastD] using hb

/-- Cursor values of the persisted checkpoints of a trace. -/
def cursorsOf (evs : List Event) : List Int :=
  (savesOf evs).map ProjState.start_at

theorem cursorsOf_append (a b : List Event) :
    cursorsOf (a ++ b) = cursorsOf a ++ cursorsOf b := by
  simp [cursorsOf, savesOf_append]

theorem processItems_cursor (env : Env) :
    ∀ (items : List (Option String)) (s p t : Int) (store : List String),
      List.Chain' (· ≤ ·) (s :: cursorsOf (processItems env items s p t store).events) ∧
      lastD (cursorsOf (processItems env items s p t store).events) s ≤
        (processItems env items s p t store).s ∧
      s ≤ (processItems env items s p t store).s := by
  intro items
  induction items with
  | nil =>
    intro s p t store
    exact ⟨by simp [processItems, cursorsOf, savesOf],
      le_refl s, le_refl s⟩
  | cons item rest ih =>
    intro s p t store
    have hskip : ∀ (p' : Int),
        (List.Chain' (· ≤ ·)
          ((s + 1) :: cursorsOf (processItems env rest (s + 1) p' t store).events) ∧
        lastD (cursorsOf (processItems env rest (s + 1) p' t store).events) (s + 1) ≤
          (processItems env rest (s + 1) p' t store).s ∧
        s + 1 ≤ (processItems env rest (s + 1) p' t store).s) →
        (List.Chain' (· ≤ ·)
          (s :: cursorsOf (processItems env rest (s + 1) p' t store).events) ∧
        lastD (cursorsOf (processItems env rest (s + 1) p' t store).events) s ≤
          (processItems env rest (s + 1) p' t store).s ∧
        s ≤ (processItems env rest (s + 1) p' t store).s) := by
      intro p' h
      exact ⟨chain_base_weaken s (s + 1) _ (by omega) h.1,
        lastD_base_weaken _ s (s + 1) h.2.1 (by omega) h.2.2,
        le_trans (by omega) h.2.2⟩
    cases item with
    | none => exact hskip p (ih (s + 1) p t store)
    | some k =>
      by_cases hk : k = ""
      · subst hk
        have heq : processItems env (some "" :: rest) s p t store =
            processItems env rest (s + 1) p t store := rfl
        rw [heq]
        exact hskip p (ih (s + 1) p t store)
      · by_cases hmem : k ∈ store
        · have heq : processItems env (some k :: rest) s p t store =
              processItems env rest (s + 1) (if 0 < p then p - 1 else p) t store := by
            simp [processItems, hk, hmem]
          rw [heq]
          exact hskip _ (ih (s + 1) _ t store)
        · by_cases hf : env.fetchOk k = true
          · have hr := ih (s + 1) (if 0 < p then p - 1 else p) (t + 1) (store ++ [k])
            have heq : processItems env (some k :: rest) s p t store =
                ⟨(processItems env rest (s + 1) (if 0 < p then p - 1 else p) (t + 1)
                    (store ++ [k])).s,
                  (processItems env rest (s + 1) (if 0 < p then p - 1 else p) (t + 1)
                    (store ++ [k])).p,
                  (processItems env rest (s + 1) (if 0 < p then p - 1 else p) (t + 1)
                    (store ++ [k])).t,
                  (processItems env rest (s + 1) (if 0 < p then p - 1 else p) (t + 1)
                    (store ++ [k])).store,
                  Event.fetch k :: Event.putRaw k ::
                    Event.save ⟨s + 1, if 0 < p then p - 1 else p, t + 1, Status.running⟩ ::
                    (processItems env rest (s + 1) (if 0 < p then p - 1 else p) (t + 1)
                      (store ++ [k])).events,
                  (processItems env rest (s + 1) (if 0 < p then p - 1 else p) (t + 1)
                    (store ++ [k])).err⟩ := by
              simp [processItems, hk, hmem, hf]
            rw [heq]
            have hcur : cursorsOf (Event.fetch k :: Event.putRaw k ::
                Event.save ⟨s + 1, if 0 < p then p - 1 else p, t + 1, Status.running⟩ ::
                (processItems env rest (s + 1) (if 0 < p then p - 1 else p) (t + 1)
                  (store ++ [k])).events) =
                (s + 1) :: cursorsOf (processItems env rest (s + 1)
                  (if 0 < p then p - 1 else p) (t + 1) (store ++ [k])).events := rfl
            refine ⟨?_, ?_, ?_⟩
            · rw [hcur]
              exact List.chain'_cons.mpr ⟨by omega, hr.1⟩
            · rw [hcur]
              simpa [lastD] using hr.2.1
            · exact le_trans (by omega) hr.2.2
          · have heq : processItems env (some k :: rest) s p t store =
                ⟨s, p, t, store,
                  [Event.fetch k, Event.save ⟨s, p, t, Status.failed⟩], some k⟩ := by
              simp [processItems, hk, hmem, hf]
            rw [heq]
            refine ⟨?_, ?_, le_refl s⟩
            · show List.Chain' (· ≤ ·) [s, s]
              exact List.chain'_pair.mpr (le_refl s)
            · show lastD [s] s ≤ s
              simp [lastD]

theorem runLoop_cursor (env : Env) (u : Bool) :
    ∀ (fuel : Nat) (s p t : Int) (store : List String),
      List.Chain' (· ≤ ·) (s :: cursorsOf (runLoop env u fuel s p t store).events) ∧
      lastD (cursorsOf (runLoop env u fuel s p t store).events) s ≤
        (runLoop env u fuel s p t store).s ∧
      s ≤ (runLoop env u fuel s p t store).s := by
  intro fuel
  induction fuel with
  | zero =>
    intro s p t store
    exact ⟨by simp [runLoop, cursorsOf, savesOf], le_refl s, le_refl s⟩
  | succ f ih =>
    intro s p t store
    rcases runLoop_succ_shape env u f s p t store with
      h | ⟨eb, h⟩ | ⟨eb, h⟩ | ⟨eb, items, ir, k, hir, herr, h⟩ |
      ⟨eb, items, ir, hir, herr, h⟩ | ⟨eb, items, ir, hir, herr, h⟩ <;>
      rw [h]
    · exact ⟨by simp [cursorsOf, savesOf], le_refl s, le_refl s⟩
    · exact ⟨by simp [cursorsOf, savesOf], le_refl s, le_refl s⟩
    · exact ⟨by simp [cursorsOf, savesOf], le_refl s, le_refl s⟩
    · have hi := processItems_cursor env items s p t store
      rw [← hir] at hi
      exact ⟨hi.1, hi.2.1, hi.2.2⟩
    · have hi := processItems_cursor env items s p t store
      rw [← hir] at hi
      have hcur : cursorsOf (Event.search s eb ::
          (ir.events ++ [Event.save ⟨ir.s, ir.p, ir.t, Status.running⟩])) =
          cursorsOf ir.events ++ [ir.s] := by
        show cursorsOf (ir.events ++ [Event.save ⟨ir.s, ir.p, ir.t, Status.running⟩]) = _
        rw [cursorsOf_append]
        rfl
      refine ⟨?_, ?_, hi.2.2⟩
      · rw [hcur]
        exact chain_glue s _ _ hi.1 (List.chain'_pair.mpr hi.2.1)
      · rw [hcur, lastD_append]
        simp [lastD]
    · have hi := processItems_cursor env items s p t store
      rw [← hir] at hi
      have hr := ih ir.s ir.p ir.t ir.store
      have hcur : cursorsOf ((Event.search s eb ::
          (ir.events ++ [Event.save ⟨ir.s, ir.p, ir.t, Status.running⟩])) ++
            (runLoop env u f ir.s ir.p ir.t ir.store).events) =
          (cursorsOf ir.events ++ [ir.s]) ++
            cursorsOf (runLoop env u f ir.s ir.p ir.t ir.store).events := by
        rw [List.cons_append]
        show cursorsOf ((ir.events ++ [Event.save ⟨ir.s, ir.p, ir.t, Status.running⟩]) ++
          (runLoop env u f ir.s ir.p ir.t ir.store).events) = _
        rw [cursorsOf_append, cursorsOf_append]
        rfl
      have hmid : lastD (cursorsOf ir.events ++ [ir.s]) s = ir.s := by
        rw [lastD_append]; rfl
      refine ⟨?_, ?_, le_trans hi.2.2 hr.2.2⟩
      · rw [hcur]
        refine chain_glue s _ _ ?_ ?_
        · exact chain_glue s _ _ hi.1 (List.chain'_pair.mpr hi.2.1)
        · rw [hmid]; exact hr.1
      · rw [hcur, lastD_append, hmid]
        exact hr.2.1

theorem initState_cursor (st0 : Option ProjState) (add : Int) :
    (initState st0 add).start_at = (ensureProjectState st0).start_at := by
  by_cases ha : 0 < add <;> simp [initState, ha]

theorem initState_total (st0 : Option ProjState) (add : Int) :
    (initState st0 add).total_fetched = (ensureProjectState st0).total_fetched := by
  by_cases ha : 0 < add <;> simp [initState, ha]

theorem lastD_map_getLast {α β : Type} (f : α → β) :
    ∀ (l : List α) (x : α) (c : β), l.getLast? = some x → lastD (l.map f) c = f x := by
  intro l
  induction l with
  | nil => intro x c h; simp at h
  | cons a r ih =>
    intro x c h
    cases r with
    | nil =>
      simp at h
      subst h; rfl
    | cons b r' =>
      rw [List.getLast?_cons_cons] at h
      simpa [lastD] using ih x (f a) h

theorem ensure_lastSaved (st0 : Option ProjState) (evs : List Event) :
    (ensureProjectState (lastSavedState st0 evs)).start_at =
      lastD (cursorsOf evs) (ensureProjectState st0).start_at := by
  unfold lastSavedState
  cases hl : (savesOf evs).getLast? with
  | none =>
    have hnil : savesOf evs = [] := by
      cases hse : savesOf evs with
      | nil => rfl
      | cons a r => rw [hse] at hl; simp [List.getLast?_concat] at hl
    simp [cursorsOf, hnil, lastD]
  | some x =>
    show (ensureProjectState (some x)).start_at =
      lastD ((savesOf evs).map ProjState.start_at) (ensureProjectState st0).start_at
    rw [lastD_map_getLast ProjState.start_at (savesOf evs) x _ hl]
    rfl

theorem runProject_cursor (env : Env) (fuel : Nat) (st0 : Option ProjState)
    (add : Int) (store0 : List String) :
    List.Chain' (· ≤ ·) ((ensureProjectState st0).start_at ::
      cursorsOf (runProject env fuel st0 add store0).events) := by
  have hx : runProject env fuel st0 add store0 =
      finishRun (initState st0 add).last_status (initEvents st0 add)
        (runLoop env ((initState st0 add).pending == 0 && (env.max_issues).isNone) fuel
          (initState st0 add).start_at (initState st0 add).pending
          (initState st0 add).total_fetched store0) := rfl
  rw [hx]
  set u := (initState st0 add).pending == 0 && (env.max_issues).isNone with hu
  set lr := runLoop env u fuel (initState st0 add).start_at (initState st0 add).pending
    (initState st0 add).total_fetched store0 with hlr
  have hl := runLoop_cursor env u fuel (initState st0 add).start_at
    (initState st0 add).pending (initState st0 add).total_fetched store0
  rw [← hlr] at hl
  rw [initState_cursor] at hl
  have hc0 : cursorsOf (initEvents st0 add) = [] ∨
      cursorsOf (initEvents st0 add) = [(ensureProjectState st0).start_at] := by
    by_cases ha : 0 < add
    · right
      simp only [initEvents, if_pos ha]
      show [(initState st0 add).start_at] = _
      rw [initState_cursor]
    · left
      simp [initEvents, if_neg ha, cursorsOf, savesOf]
  have hbase : ∀ tail : List Int,
      List.Chain' (· ≤ ·) ((ensureProjectState st0).start_at :: tail) →
      List.Chain' (· ≤ ·) ((ensureProjectState st0).start_at ::
        (cursorsOf (initEvents st0 add) ++ tail)) := by
    intro tail ht
    rcases hc0 with h0 | h0
    · rw [h0]; simpa using ht
    · rw [h0]
      exact List.chain'_cons.mpr ⟨le_refl _, ht⟩
  have hchain_tail : ∀ (fin : ProjState), lastD (cursorsOf lr.events)
        (ensureProjectState st0).start_at ≤ fin.start_at →
      List.Chain' (· ≤ ·) ((ensureProjectState st0).start_at ::
        (cursorsOf lr.events ++ [fin.start_at])) := by
    intro fin hle
    exact chain_glue _ _ _ hl.1 (List.chain'_pair.mpr hle)
  rcases hex : lr.exit with _ | k | _ | _
  · rw [finishRun_events_completed _ _ _ hex]
    rw [List.append_assoc, cursorsOf_append, cursorsOf_append]
    have hfin : cursorsOf [Event.save (⟨lr.s, lr.p, lr.t, Status.success⟩ : ProjState)] =
        [lr.s] := rfl
    rw [hfin]
    exact hbase _ (hchain_tail ⟨lr.s, lr.p, lr.t, Status.success⟩ hl.2.1)
  · rw [finishRun_errored _ _ _ _ hex]
    show List.Chain' (· ≤ ·) ((ensureProjectState st0).start_at ::
      cursorsOf (initEvents st0 add ++ lr.events ++
        [Event.save ⟨lr.s, lr.p, lr.t, Status.failed⟩]))
    rw [List.append_assoc, cursorsOf_append, cursorsOf_append]
    have hfin : cursorsOf [Event.save (⟨lr.s, lr.p, lr.t, Status.failed⟩ : ProjState)] =
        [lr.s] := rfl
    rw [hfin]
    exact hbase _ (hchain_tail ⟨lr.s, lr.p, lr.t, Status.failed⟩ hl.2.1)
  · rw [finishRun_searchRaised _ _ _ hex]
    show List.Chain' (· ≤ ·) ((ensureProjectState st0).start_at ::
      cursorsOf (initEvents st0 add ++ lr.events ++
        [Event.save ⟨lr.s, lr.p, lr.t, Status.failed⟩]))
    rw [List.append_assoc, cursorsOf_append, cursorsOf_append]
    have hfin : cursorsOf [Event.save (⟨lr.s, lr.p, lr.t, Status.failed⟩ : ProjState)] =
        [lr.s] := rfl
    rw [hfin]
    exact hbase _ (hchain_tail ⟨lr.s, lr.p, lr.t, Status.failed⟩ hl.2.1)
  · rw [finishRun_events_fuelOut _ _ _ hex, cursorsOf_append]
    exact hbase _ hl.1

/-- C7: across any sequence of orchestrator invocations on one project —
arbitrary per-run environments, fuels and `add_pending` values, with the
on-disk checkpoint and raw store threaded between runs — the cursor values of
all persisted checkpoints form a non-decreasing chain starting from the
initial cursor: the cursor never decreases within a run nor between runs. -/
theorem cursor_monotone_across_runs (specs : List RunSpec) :
    ∀ (st0 : Option ProjState) (store : List String),
      List.Chain' (· ≤ ·) ((ensureProjectState st0).start_at ::
        (seqSaves st0 store specs).map ProjState.start_at) := by
  induction specs with
  | nil => intro st0 store; simp [seqSaves]
  | cons rs rest ih =>
    intro st0 store
    show List.Chain' (· ≤ ·) ((ensureProjectState st0).start_at ::
      (savesOf (runProject rs.env rs.fuel st0 rs.add store).events ++
        seqSaves (lastSavedState st0 (runProject rs.env rs.fuel st0 rs.add store).events)
          (runProject rs.env rs.fuel st0 rs.add store).store rest).map ProjState.start_at)
    rw [List.map_append]
    refine chain_glue _ _ _ (runProject_cursor rs.env rs.fuel st0 rs.add store) ?_
    have hh := ensure_lastSaved st0 (runProject rs.env rs.fuel st0 rs.add store).events
    rw [cursorsOf] at hh
    rw [← hh]
    exact ih _ _


/-! ### The composed list call never binds: real-run behavior -/

theorem searchCallBinds_false : searchCallBinds = false := by decide

theorem listEnv_raises (km : List String) (b : Int) (s eb : Int) :
    (listEnv km b).listPage s eb = SearchRes.raise := by
  simp [listEnv, searchCallBinds_false]

theorem fetchesOf_initEvents (st0 : Option ProjState) (add : Int) :
    fetchesOf (initEvents st0 add) = [] := by
  by_cases h : 0 < add <;> simp [initEvents, h, fetchesOf]

theorem fetchesOf_finishRun (ls : Status) (ev0 : List Event) (lr : LoopRes) :
    fetchesOf (finishRun ls ev0 lr).events = fetchesOf ev0 ++ fetchesOf lr.events := by
  rcases lr with ⟨s, p, t, store, ev, ex⟩
  cases ex <;> simp [finishRun, fetchesOf_append, fetchesOf]

theorem runLoop_listEnv_no_fetch (km : List String) (b : Int) (u : Bool) (fuel : Nat)
    (s p t : Int) (store : List String) :
    fetchesOf (runLoop (listEnv km b) u fuel s p t store).events = [] := by
  cases fuel with
  | zero => rfl
  | succ f =>
    simp only [runLoop]
    cases heb : effectiveBatch (listEnv km b) u p t with
    | none => rfl
    | some eb =>
      dsimp only
      by_cases hbrk : u = false ∧ p = 0
      · rw [if_pos hbrk]
        rfl
      · rw [if_neg hbrk, listEnv_raises]
        rfl

theorem runLoop_real_first (km : List String) (b : Int) (fuel : Nat) (s p t : Int)
    (store : List String) (hf : 1 ≤ fuel) (hp : 0 < p) :
    runLoop (listEnv km b) false fuel s p t store =
      ⟨s, p, t, store, [Event.search s (min b p)], LoopExit.searchRaised⟩ := by
  obtain ⟨f, rfl⟩ : ∃ f, fuel = f + 1 := ⟨fuel - 1, by omega⟩
  have heb : effectiveBatch (listEnv km b) false p t = some (min b p) := by
    simp [effectiveBatch, listEnv, truthyInt, hp]
  simp only [runLoop]
  rw [heb]
  dsimp only
  rw [if_neg (fun hc => absurd hc.2 (by omega) : ¬ (True ∧ p = 0))]
  rw [listEnv_raises]

/-! ### Claim theorems: the real runs abort at the first list call -/

/-- C1 (code bug): tracing the DEMO scenario — empty checkpoint,
`add_pending = 3`, batch size 2, five keyed unstored remote records — the run
attempts one list call `(startAt 0, size 2)`, which raises TypeError because
the `project_key` keyword (scraper.py line 95) binds against no parameter of
`search_issues` (jira_client.py line 158); zero pages are obtained, zero raw
records are written, and the final persisted checkpoint is
`{start_at 0, pending 3, total_fetched 0, last_status failed}` — not the
claimed two pages, three records and success. -/
theorem demo_scenario_type_error :
    searchCallBinds = false ∧
    searchesOf (runProject demoEnv 10 none 3 []).events = [(0, 2)] ∧
    fetchesOf (runProject demoEnv 10 none 3 []).events = [] ∧
    putsOf (runProject demoEnv 10 none 3 []).events = [] ∧
    (runProject demoEnv 10 none 3 []).state = ⟨0, 3, 0, Status.failed⟩ ∧
    (savesOf (runProject demoEnv 10 none 3 []).events).getLast? =
      some ⟨0, 3, 0, Status.failed⟩ ∧
    (runProject demoEnv 10 none 3 []).exit = LoopExit.searchRaised := by
  decide

/-- C2 (code bug): in the program as composed, no per-record fetch or persist
error can ever occur inside the orchestrator loop — `get_issue` is unreachable
because every `search_issues` call raises TypeError first (the `project_key`
keyword binds against no declared parameter), so the loop performs no fetch on
any input; and `run_project` returns normally on every input (its outer
`except` handler ends without re-raising), so no failure of any kind is
propagated to the caller. -/
theorem per_record_failure_unreachable (km : List String) (b : Int) (fuel : Nat)
    (st0 : Option ProjState) (add : Int) (store0 : List String) :
    searchCallBinds = false ∧
    fetchesOf (runProject (listEnv km b) fuel st0 add store0).events = [] ∧
    (runProject (listEnv km b) fuel st0 add store0).outcome = Outcome.normal := by
  refine ⟨searchCallBinds_false, ?_, ?_⟩
  · have hx : runProject (listEnv km b) fuel st0 add store0 =
        finishRun (initState st0 add).last_status (initEvents st0 add)
          (runLoop (listEnv km b)
            ((initState st0 add).pending == 0 && (((listEnv km b)).max_issues).isNone) fuel
            (initState st0 add).start_at (initState st0 add).pending
            (initState st0 add).total_fetched store0) := rfl
    rw [hx, fetchesOf_finishRun, fetchesOf_initEvents, runLoop_listEnv_no_fetch]
    rfl
  · exact finishRun_outcome _ _ _

/-- C5 (code bug): the scenario "get_issue fails unrecoverably on the 2nd
record" is unreachable: the first list call raises TypeError before any
`get_issue`, so zero raw records are created and the checkpoint persisted at
the failure is `{start_at 0, pending 3, total_fetched 0, last_status failed}`,
not `{1, 2, 1, failed}` with one record. -/
theorem demo_fail_scenario_type_error :
    fetchesOf (runProject failEnv 10 none 3 []).events = [] ∧
    putsOf (runProject failEnv 10 none 3 []).events = [] ∧
    (runProject failEnv 10 none 3 []).state = ⟨0, 3, 0, Status.failed⟩ ∧
    (savesOf (runProject failEnv 10 none 3 []).events).getLast? =
      some ⟨0, 3, 0, Status.failed⟩ ∧
    (runProject failEnv 10 none 3 []).exit = LoopExit.searchRaised := by
  decide

/-- C3 counterexample: after a crash that persisted `addPending(P, 5)` (state
`{0, 5, 0, unknown}`), re-invoking `main` without `--limit` does NOT fetch
exactly 5 records: the flag defaults to 10 (so pending becomes 15), and then
the run fetches 0 — the first `search_issues` call raises TypeError. -/
theorem relaunch_default_limit_cx :
    (fetchesOf (runProject (listEnv wideRemote 50) 30
        (some ⟨0, 5, 0, Status.unknown⟩) (mainAddPending none) []).events).length = 0 ∧
    ¬ (fetchesOf (runProject (listEnv wideRemote 50) 30
        (some ⟨0, 5, 0, Status.unknown⟩) (mainAddPending none) []).events).length = 5 ∧
    (runProject (listEnv wideRemote 50) 30 (some ⟨0, 5, 0, Status.unknown⟩)
        (mainAddPending none) []).state.pending = 15 := by
  decide

/-- C3 (amended): after a crash that left the persisted checkpoint at
`{0, pending 5, 0, unknown}`, re-invoking `main` without `--limit` first adds
the flag's default of 10 to the surviving pending and durably saves
`{0, 15, 0, unknown}` before any network activity, and then fetches zero
records — the first `search_issues` call raises TypeError — leaving the final
persisted checkpoint `{0, 15, 0, failed}`.  The pending obligation survives
the crash (and the failed re-run), but nothing is fetched, so neither 5 nor
any other count of new records is obtained. -/
theorem relaunch_after_crash (km : List String) (b : Int) (fuel : Nat)
    (hf : 1 ≤ fuel) :
    mainAddPending none = 10 ∧
    (runProject (listEnv km b) fuel (some ⟨0, 5, 0, Status.unknown⟩)
      (mainAddPending none) []).events.head? =
      some (Event.save ⟨0, 15, 0, Status.unknown⟩) ∧
    fetchesOf (runProject (listEnv km b) fuel (some ⟨0, 5, 0, Status.unknown⟩)
      (mainAddPending none) []).events = [] ∧
    (runProject (listEnv km b) fuel (some ⟨0, 5, 0, Status.unknown⟩)
      (mainAddPending none) []).state = ⟨0, 15, 0, Status.failed⟩ ∧
    (savesOf (runProject (listEnv km b) fuel (some ⟨0, 5, 0, Status.unknown⟩)
      (mainAddPending none) []).events).getLast? =
      some ⟨0, 15, 0, Status.failed⟩ := by
  have hmain : mainAddPending none = 10 := rfl
  have hst1 : initState (some ⟨0, 5, 0, Status.unknown⟩) 10 =
      ⟨0, 15, 0, Status.unknown⟩ := by
    simp [initState, ensureProjectState]
  have hev : initEvents (some ⟨0, 5, 0, Status.unknown⟩) 10 =
      [Event.save ⟨0, 15, 0, Status.unknown⟩] := by
    simp [initEvents, hst1]
  have hbeq : (((15 : Int) == 0) : Bool) = false := by decide
  have hx : runProject (listEnv km b) fuel (some ⟨0, 5, 0, Status.unknown⟩)
      (mainAddPending none) [] =
      finishRun Status.unknown [Event.save ⟨0, 15, 0, Status.unknown⟩]
        (runLoop (listEnv km b) false fuel 0 15 0 []) := by
    show finishRun (initState (some ⟨0, 5, 0, Status.unknown⟩)
        (mainAddPending none)).last_status
        (initEvents (some ⟨0, 5, 0, Status.unknown⟩) (mainAddPending none))
        (runLoop (listEnv km b)
          ((initState (some ⟨0, 5, 0, Status.unknown⟩)
              (mainAddPending none)).pending == 0 &&
            (((listEnv km b)).max_issues).isNone) fuel
          (initState (some ⟨0, 5, 0, Status.unknown⟩) (mainAddPending none)).start_at
          (initState (some ⟨0, 5, 0, Status.unknown⟩) (mainAddPending none)).pending
          (initState (some ⟨0, 5, 0, Status.unknown⟩)
            (mainAddPending none)).total_fetched []) = _
    rw [hmain, hst1, hev]
    dsimp only
    rw [hbeq, Bool.false_and]
  have hloop := runLoop_real_first km b fuel 0 15 0 [] hf (by omega)
  rw [hx, hloop, finishRun_searchRaised _ _ _ rfl]
  exact ⟨hmain, rfl, rfl, rfl, rfl⟩

theorem relaunch_after_crash_witness :
    mainAddPending none = 10 ∧
    (runProject (listEnv wideRemote 50) 30 (some ⟨0, 5, 0, Status.unknown⟩)
      (mainAddPending none) []).events.head? =
      some (Event.save ⟨0, 15, 0, Status.unknown⟩) ∧
    fetchesOf (runProject (listEnv wideRemote 50) 30 (some ⟨0, 5, 0, Status.unknown⟩)
      (mainAddPending none) []).events = [] ∧
    (runProject (listEnv wideRemote 50) 30 (some ⟨0, 5, 0, Status.unknown⟩)
      (mainAddPending none) []).state = ⟨0, 15, 0, Status.failed⟩ ∧
    (savesOf (runProject (listEnv wideRemote 50) 30 (some ⟨0, 5, 0, Status.unknown⟩)
      (mainAddPending none) []).events).getLast? =
      some ⟨0, 15, 0, Status.failed⟩ :=
  relaunch_after_crash wideRemote 50 30 (by omega)

/-- C6 (code bug): for a remote source of exactly `K` records, a fresh run
requesting `limit = K + 10` performs zero fetches — the first list call raises
TypeError (`project_key` keyword against `search_issues`'s signature) — and
terminates with the persisted checkpoint
`{start_at 0, pending K + 10, total_fetched 0, last_status failed}`, not after
exactly `K` fetches with `success`; the exception is swallowed and the call
returns normally. -/
theorem end_of_data_type_error (km : List String) (b : Int) (fuel : Nat)
    (hf : 1 ≤ fuel) :
    (runProject (listEnv km b) fuel none ((km.length : Int) + 10) []).exit =
      LoopExit.searchRaised ∧
    fetchesOf (runProject (listEnv km b) fuel none
      ((km.length : Int) + 10) []).events = [] ∧
    putsOf (runProject (listEnv km b) fuel none
      ((km.length : Int) + 10) []).events = [] ∧
    (runProject (listEnv km b) fuel none ((km.length : Int) + 10) []).state =
      ⟨0, (km.length : Int) + 10, 0, Status.failed⟩ ∧
    (savesOf (runProject (listEnv km b) fuel none
      ((km.length : Int) + 10) []).events).getLast? =
      some ⟨0, (km.length : Int) + 10, 0, Status.failed⟩ ∧
    (runProject (listEnv km b) fuel none ((km.length : Int) + 10) []).outcome =
      Outcome.normal := by
  have hadd : (0 : Int) < (km.length : Int) + 10 := by omega
  have hst1 : initState none ((km.length : Int) + 10) =
      ⟨0, (km.length : Int) + 10, 0, Status.unknown⟩ := by
    simp [initState, ensureProjectState, hadd]
  have hev : initEvents none ((km.length : Int) + 10) =
      [Event.save ⟨0, (km.length : Int) + 10, 0, Status.unknown⟩] := by
    simp [initEvents, hadd, hst1]
  have hbeq : ((((km.length : Int) + 10) == 0) : Bool) = false := by
    rw [beq_eq_false_iff_ne]
    omega
  have hx : runProject (listEnv km b) fuel none ((km.length : Int) + 10) [] =
      finishRun Status.unknown
        [Event.save ⟨0, (km.length : Int) + 10, 0, Status.unknown⟩]
        (runLoop (listEnv km b) false fuel 0 ((km.length : Int) + 10) 0 []) := by
    show finishRun (initState none ((km.length : Int) + 10)).last_status
        (initEvents none ((km.length : Int) + 10))
        (runLoop (listEnv km b)
          ((initState none ((km.length : Int) + 10)).pending == 0 &&
            (((listEnv km b)).max_issues).isNone) fuel
          (initState none ((km.length : Int) + 10)).start_at
          (initState none ((km.length : Int) + 10)).pending
          (initState none ((km.length : Int) + 10)).total_fetched []) = _
    rw [hst1, hev]
    dsimp only
    rw [hbeq, Bool.false_and]
  have hloop := runLoop_real_first km b fuel 0 ((km.length : Int) + 10) 0 []
    hf (by omega)
  rw [hx, hloop, finishRun_searchRaised _ _ _ rfl]
  exact ⟨rfl, rfl, rfl, rfl, rfl, rfl⟩

theorem end_of_data_type_error_witness :
    (runProject (listEnv ["x", "y"] 2) 5 none
      (((["x", "y"] : List String).length : Int) + 10) []).exit =
      LoopExit.searchRaised ∧
    fetchesOf (runProject (listEnv ["x", "y"] 2) 5 none
      (((["x", "y"] : List String).length : Int) + 10) []).events = [] ∧
    putsOf (runProject (listEnv ["x", "y"] 2) 5 none
      (((["x", "y"] : List String).length : Int) + 10) []).events = [] ∧
    (runProject (listEnv ["x", "y"] 2) 5 none
      (((["x", "y"] : List String).length : Int) + 10) []).state =
      ⟨0, ((["x", "y"] : List String).length : Int) + 10, 0, Status.failed⟩ ∧
    (savesOf (runProject (listEnv ["x", "y"] 2) 5 none
      (((["x", "y"] : List String).length : Int) + 10) []).events).getLast? =
      some ⟨0, ((["x", "y"] : List String).length : Int) + 10, 0, Status.failed⟩ ∧
    (runProject (listEnv ["x", "y"] 2) 5 none
      (((["x", "y"] : List String).length : Int) + 10) []).outcome =
      Outcome.normal :=
  end_of_data_type_error ["x", "y"] 2 5 (by omega)
/-- C4: when `add_pending > 0`, the very first effect of `run_project` is the
durable save of the checkpoint with `pending` incremented by `add` (cursor and
total unchanged) — strictly before any `search_issues` or `get_issue` call. -/
theorem addPending_saved_before_network (env : Env) (fuel : Nat)
    (st0 : Option ProjState) (add : Int) (store0 : List String) (h : 0 < add) :
    (runProject env fuel st0 add store0).events.head? =
      some (Event.save (initState st0 add)) ∧
    (initState st0 add).pending = (ensureProjectState st0).pending + add ∧
    (initState st0 add).start_at = (ensureProjectState st0).start_at ∧
    (initState st0 add).total_fetched = (ensureProjectState st0).total_fetched := by
  refine ⟨?_, by simp [initState, h], by simp [initState, h], by simp [initState, h]⟩
  exact finishRun_head _ _ _ _ [] (by simp [initEvents, h])

theorem addPending_saved_before_network_witness :
    (runProject demoEnv 10 none 3 []).events.head? =
      some (Event.save (initState none 3)) ∧
    (initState none 3).pending = (ensureProjectState none).pending + 3 ∧
    (initState none 3).start_at = (ensureProjectState none).start_at ∧
    (initState none 3).total_fetched = (ensureProjectState none).total_fetched :=
  addPending_saved_before_network demoEnv 10 none 3 [] (by decide)

/-- C10: a page entry whose summary has no truthy `key` only advances the
cursor by one — same `pending`, same `total_fetched`, same raw store, no
fetch, no write and no checkpoint save for that entry. -/
theorem keyless_summary_skips (env : Env) (item : Option String)
    (rest : List (Option String)) (s p t : Int) (store : List String)
    (h : truthyKey item = false) :
    processItems env (item :: rest) s p t store =
      processItems env rest (s + 1) p t store := by
  cases item with
  | none => rfl
  | some k =>
    have hk : k = "" := by simpa [truthyKey] using h
    subst hk
    simp [processItems]

theorem keyless_summary_skips_witness :
    truthyKey (some "") = false ∧
    processItems demoEnv [some ""] 0 3 0 [] = processItems demoEnv [] 1 3 0 [] :=
  ⟨by decide, keyless_summary_skips demoEnv (some "") [] 0 3 0 [] (by decide)⟩
